import Mathlib

/-!
# Verification of the phony relay engine

Shallow embedding of the relay/session engine of this repository and proofs of
the specified properties.

Modules embedded from the source:
* `src/commands.py` — the command protocol (`Command`, `detect_command`,
  `execute_command`).
* `src/events.py` — the per-call event bus (`start_session`, `end_session`,
  `publish_event`, `subscribe`).
* `src/backend/relay_ws.py` — `InterceptWebSocket.send_text`, the
  telephony-side interceptor with its suppression state machine.
* `src/backend/openai_ws.py` — `OpenAISession` (turn input, overrides,
  cancellation) and the inbound (telephony → model) handler of `proxy_call`.
* `src/backend/override_api.py` — the five supervisor override handlers.

Socket sends, event publications, external provider calls and log lines are
modelled as elements of an explicit effect trace (`Eff`); wall-clock timestamps
and latency values are abstracted (`logLatency` effects carry only the metric
name).  `backend/commands.py` is imported by `backend/relay_ws.py` and
`backend/override_api.py` but is not present in the source tree (only its
callers and tests are); the definitions standing in for it carry doc comments
starting with `Modelled from the spec:`.
-/

namespace Phony

/-- Structured command parsed from model output (`src/commands.py`, class `Command`).
`value = none` is a command without a `:` part, `value = some ""` an explicit
empty value. -/
structure Command where
  action : String
  value : Option String := none
deriving DecidableEq, Repr

/-! ## Regex machinery for `re.search(r"\[\[(.*?)\]\]", text)`

`closeSplit l` returns the characters of `l` before the first adjacent `"]]"`,
failing when a newline is reached first (Python `.` does not match `\n`) or no
close exists.  `firstToken l` scans for the leftmost `"[["` from which a close
can be found, restarting one character later on failure, exactly like the
backtracking regex engine. -/

def closeSplit : List Char → Option (List Char)
  | a :: b :: rest =>
    if a == ']' && b == ']' then some []
    else if a == '\n' then none
    else (closeSplit (b :: rest)).map (a :: ·)
  | _ => none

def firstToken : List Char → Option (List Char)
  | a :: b :: rest =>
    if a == '[' && b == '[' then
      match closeSplit rest with
      | some tok => some tok
      | none => firstToken (b :: rest)
    else firstToken (b :: rest)
  | _ => none

/-- Characters stripped by Python `str.strip()` (ASCII fragment). -/
def isSpaceChar (c : Char) : Bool :=
  c = ' ' || c = '\t' || c = '\n' || c = '\r' || c = '\x0b' || c = '\x0c'

/-- `token.strip()`. -/
def stripL (l : List Char) : List Char :=
  ((l.dropWhile isSpaceChar).reverse.dropWhile isSpaceChar).reverse

/-- `action.lower()` (ASCII). -/
def lowerL (l : List Char) : List Char := l.map Char.toLower

/-- `token.split(":", 1)` preceded by the `":" in token` test: returns the part
before the first colon and, when a colon exists, the part after it. -/
def splitColon (l : List Char) : List Char × Option (List Char) :=
  if l.contains ':' then
    (l.takeWhile (· != ':'), some ((l.dropWhile (· != ':')).tail))
  else (l, none)

/-- The action set accepted by `src/commands.py::detect_command`
(`{"press", "transfer", "end_call"}`). -/
def knownRoot (l : List Char) : Bool :=
  l == "press".data || l == "transfer".data || l == "end_call".data

/-- Parsing of one bracketed token in `src/commands.py::detect_command`:
strip, split at the first colon, lowercase the action, check membership. -/
def parseTokRoot (tok : List Char) : Option Command :=
  let t := stripL tok
  let av := splitColon t
  let action := lowerL av.1
  if knownRoot action then some ⟨String.mk action, av.2.map String.mk⟩ else none

/-- `src/commands.py::detect_command`. -/
def detect_command (text : String) : Option Command :=
  if text.data.isEmpty then none
  else (firstToken text.data).bind parseTokRoot

/-! ### Side conditions for the structural theorems

`cleanTok tok` says the regex close found after `"[[" ++ tok` is exactly the
written one: `tok` contains no adjacent `"]]"`, does not end in `']'` and
contains no newline.  `hasOpenPair l` detects an adjacent `"[["`;
`hasOpenPair (pre ++ ['\x5b']) = false` says the scan finds no match start
anywhere in `pre`, including at its boundary with a following `'['`.
`noColon` makes `splitColon` split exactly at the written colon. -/

def cleanTok : List Char → Bool
  | [] => true
  | [c] => c != ']' && c != '\n'
  | a :: b :: rest => !(a == ']' && b == ']') && a != '\n' && cleanTok (b :: rest)

def hasOpenPair : List Char → Bool
  | a :: b :: rest => (a == '[' && b == '[') || hasOpenPair (b :: rest)
  | _ => false

def noColon : List Char → Bool
  | [] => true
  | c :: rest => c != ':' && noColon rest

theorem closeSplit_append (tok post : List Char) (h : cleanTok tok = true) :
    closeSplit (tok ++ ']' :: ']' :: post) = some tok := by
  induction tok with
  | nil => simp [closeSplit]
  | cons a rest ih =>
    cases rest with
    | nil =>
      simp only [cleanTok, Bool.and_eq_true, bne_iff_ne, ne_eq] at h
      have e1 : (a == ']') = false := beq_eq_false_iff_ne.mpr h.1
      have e2 : (a == '\n') = false := beq_eq_false_iff_ne.mpr h.2
      simp only [List.cons_append, List.nil_append]
      rw [closeSplit]
      simp [e1, e2, closeSplit]
    | cons b rest' =>
      simp only [cleanTok, Bool.and_eq_true, Bool.not_eq_true', bne_iff_ne, ne_eq] at h
      obtain ⟨⟨hab, hnl⟩, hrest⟩ := h
      have e2 : (a == '\n') = false := beq_eq_false_iff_ne.mpr hnl
      have ihr := ih hrest
      simp only [List.cons_append] at ihr ⊢
      rw [closeSplit, hab, e2]
      simp only [Bool.false_eq_true, if_false]
      simp [ihr]

theorem firstToken_open (rest tok : List Char) (h : closeSplit rest = some tok) :
    firstToken ('[' :: '[' :: rest) = some tok := by
  rw [firstToken]
  simp [h]

theorem firstToken_skip_pre (pre rest : List Char)
    (h : hasOpenPair (pre ++ ['[']) = false) :
    firstToken (pre ++ '[' :: '[' :: rest) = firstToken ('[' :: '[' :: rest) := by
  induction pre with
  | nil => rfl
  | cons a pre' ih =>
    cases pre' with
    | nil =>
      have ha : (a == '[') = false := by
        simpa [hasOpenPair] using h
      simp only [List.cons_append, List.nil_append]
      rw [firstToken, show (a == '[' && ('[' : Char) == '[') = false by simp [ha]]
      simp
    | cons b pre'' =>
      simp only [List.cons_append, hasOpenPair, Bool.or_eq_false_iff] at h
      have h2 : hasOpenPair ((b :: pre'') ++ ['[']) = false := by
        simpa using h.2
      have ihr := ih h2
      simp only [List.cons_append] at ihr ⊢
      rw [firstToken, h.1]
      simp only [Bool.false_eq_true, if_false]
      exact ihr

/-- The first `[[...]]` directive token determines the result of
`detect_command`: all text after its closing brackets is ignored. -/
theorem detect_command_structure (pre tok post : List Char)
    (h1 : hasOpenPair (pre ++ ['[']) = false) (h2 : cleanTok tok = true) :
    detect_command (String.mk (pre ++ '[' :: '[' :: (tok ++ ']' :: ']' :: post)))
      = parseTokRoot tok := by
  have hne : (pre ++ '[' :: '[' :: (tok ++ ']' :: ']' :: post)).isEmpty = false := by
    cases pre <;> simp [List.isEmpty]
  rw [detect_command]
  simp only [String.data]
  rw [hne]
  simp only [Bool.false_eq_true, if_false]
  rw [firstToken_skip_pre pre _ h1, firstToken_open _ tok (closeSplit_append tok post h2)]
  rfl

theorem contains_colon_append (a v : List Char) : (a ++ ':' :: v).contains ':' = true := by
  induction a with
  | nil => rfl
  | cons c a' ih => simp only [List.cons_append, List.contains_cons, ih, Bool.or_true]

theorem contains_colon_eq_false (a : List Char) (h : noColon a = true) :
    a.contains ':' = false := by
  induction a with
  | nil => rfl
  | cons c a' ih =>
    simp only [noColon, Bool.and_eq_true, bne_iff_ne, ne_eq] at h
    simp only [List.contains_cons, Bool.or_eq_false_iff]
    exact ⟨beq_eq_false_iff_ne.mpr fun e => h.1 e.symm, ih h.2⟩

theorem takeWhile_colon_append (a v : List Char) (h : noColon a = true) :
    (a ++ ':' :: v).takeWhile (· != ':') = a := by
  induction a with
  | nil => simp
  | cons c a' ih =>
    simp only [noColon, Bool.and_eq_true, bne_iff_ne, ne_eq] at h
    simp [List.takeWhile_cons, h.1, ih h.2]

theorem dropWhile_colon_append (a v : List Char) (h : noColon a = true) :
    (a ++ ':' :: v).dropWhile (· != ':') = ':' :: v := by
  induction a with
  | nil => simp
  | cons c a' ih =>
    simp only [noColon, Bool.and_eq_true, bne_iff_ne, ne_eq] at h
    simp [List.dropWhile_cons, h.1, ih h.2]

theorem splitColon_append (a v : List Char) (h : noColon a = true) :
    splitColon (a ++ ':' :: v) = (a, some v) := by
  rw [splitColon, contains_colon_append]
  simp [takeWhile_colon_append a v h, dropWhile_colon_append a v h]

theorem splitColon_plain (a : List Char) (h : noColon a = true) :
    splitColon a = (a, none) := by
  rw [splitColon, contains_colon_eq_false a h]
  simp

theorem parseTokRoot_colon (a v : List Char)
    (hs : stripL (a ++ ':' :: v) = a ++ ':' :: v) (hc : noColon a = true) :
    parseTokRoot (a ++ ':' :: v)
      = if knownRoot (lowerL a) then some ⟨String.mk (lowerL a), some (String.mk v)⟩
        else none := by
  simp only [parseTokRoot, hs, splitColon_append a v hc, Option.map_some']

theorem parseTokRoot_plain (a : List Char) (hs : stripL a = a) (hc : noColon a = true) :
    parseTokRoot a
      = if knownRoot (lowerL a) then some ⟨String.mk (lowerL a), none⟩ else none := by
  simp only [parseTokRoot, hs, splitColon_plain a hc, Option.map_none']

theorem knownRoot_cases (l : List Char) (h : knownRoot l = true) :
    l = "press".data ∨ l = "transfer".data ∨ l = "end_call".data := by
  by_cases h1 : l = "press".data
  · exact Or.inl h1
  by_cases h2 : l = "transfer".data
  · exact Or.inr (Or.inl h2)
  by_cases h3 : l = "end_call".data
  · exact Or.inr (Or.inr h3)
  exfalso
  rw [knownRoot] at h
  simp [beq_iff_eq, h1, h2, h3] at h

/-- Claim C2 (amended): `src/commands.py::detect_command` strips and lowercases the
bracketed action and accepts exactly the three-action set {press, transfer,
end_call}: for text whose first directive is `[[a:v]]` (resp. `[[a]]`) it returns
that action and value exactly when the lowercased action is in this set, and it
never returns any other action — in particular a `[[request_user:...]]` directive
yields `none` even though the bracket syntax matches. -/
theorem detect_command_known_actions :
    (∀ pre a v post,
      hasOpenPair (pre ++ ['[']) = false → cleanTok (a ++ ':' :: v) = true →
      stripL (a ++ ':' :: v) = a ++ ':' :: v → noColon a = true →
      detect_command (String.mk (pre ++ '[' :: '[' :: ((a ++ ':' :: v) ++ ']' :: ']' :: post)))
        = if knownRoot (lowerL a) then some ⟨String.mk (lowerL a), some (String.mk v)⟩
          else none)
  ∧ (∀ pre a post,
      hasOpenPair (pre ++ ['[']) = false → cleanTok a = true →
      stripL a = a → noColon a = true →
      detect_command (String.mk (pre ++ '[' :: '[' :: (a ++ ']' :: ']' :: post)))
        = if knownRoot (lowerL a) then some ⟨String.mk (lowerL a), none⟩ else none)
  ∧ (∀ t c, detect_command t = some c →
      c.action = "press" ∨ c.action = "transfer" ∨ c.action = "end_call") := by
  refine ⟨?_, ?_, ?_⟩
  · intro pre a v post h1 h2 hs hc
    rw [detect_command_structure pre (a ++ ':' :: v) post h1 h2,
      parseTokRoot_colon a v hs hc]
  · intro pre a post h1 h2 hs hc
    rw [detect_command_structure pre a post h1 h2, parseTokRoot_plain a hs hc]
  · intro t c h
    rw [detect_command] at h
    by_cases he : t.data.isEmpty
    · rw [if_pos he] at h
      exact absurd h (by simp)
    · rw [if_neg he] at h
      cases hft : firstToken t.data with
      | none => rw [hft] at h; exact absurd h (by simp)
      | some tok =>
        rw [hft] at h
        replace h : parseTokRoot tok = some c := h
        simp only [parseTokRoot] at h
        by_cases hk : knownRoot (lowerL (splitColon (stripL tok)).1) = true
        · rw [if_pos hk] at h
          have hc := Option.some.inj h
          have hact : c.action = String.mk (lowerL (splitColon (stripL tok)).1) := by
            rw [← hc]
          rcases knownRoot_cases _ hk with h' | h' | h'
          · left; rw [hact, h']
          · right; left; rw [hact, h']
          · right; right; rw [hact, h']
        · rw [if_neg hk] at h
          exact absurd h (by simp)

/-- Claim C2 counterexample: the claim requires `detect_command` to return
`Command(request_user, "code")` on this text; the source's known-action set
is only {press, transfer, end_call}, so it returns `none`. -/
theorem detect_command_drops_request_user :
    detect_command "Need [[request_user:code]]" = none
      ∧ detect_command "Need [[request_user:code]]"
          ≠ some ⟨"request_user", some "code"⟩ := by
  exact ⟨by decide, by decide⟩

theorem detect_command_known_actions_witness :
    detect_command "do [[press:1]] now" = some ⟨"press", some "1"⟩
      ∧ detect_command "hm [[request_user:x]] ok" = none := by
  obtain ⟨h1, _, _⟩ := detect_command_known_actions
  constructor
  · have e := h1 "do ".data "press".data "1".data " now".data
      (by decide) (by decide) (by decide) (by decide)
    have e2 : String.mk ("do ".data ++ '[' :: '[' ::
        (("press".data ++ ':' :: "1".data) ++ ']' :: ']' :: " now".data))
        = "do [[press:1]] now" := by decide
    rw [← e2, e]
    decide
  · have e := h1 "hm ".data "request_user".data "x".data " ok".data
      (by decide) (by decide) (by decide) (by decide)
    have e2 : String.mk ("hm ".data ++ '[' :: '[' ::
        (("request_user".data ++ ':' :: "x".data) ++ ']' :: ']' :: " ok".data))
        = "hm [[request_user:x]] ok" := by decide
    rw [← e2, e]
    decide

/-- Claim C8 (amended): only the first `[[...]]` occurrence of a text is parsed,
directives after it are ignored; for a bracketed token without surrounding
whitespace the value is everything between the colon and the closing brackets and
may be the empty string, which is distinct from the absent value of the colon-less
form. (The source calls `.strip()` on the whole bracketed token, so surrounding —
in particular trailing — whitespace of the value is removed; see the
counterexample.) -/
theorem detect_command_first_occurrence :
    (∀ pre tok1 mid tok2 post,
      hasOpenPair (pre ++ ['[']) = false → cleanTok tok1 = true →
      detect_command (String.mk (pre ++ '[' :: '[' ::
          (tok1 ++ ']' :: ']' :: (mid ++ '[' :: '[' :: (tok2 ++ ']' :: ']' :: post)))))
        = parseTokRoot tok1)
  ∧ detect_command "x [[press:]] y [[transfer:123]]" = some ⟨"press", some ""⟩
  ∧ detect_command "a [[end_call]] b [[press:9]]" = some ⟨"end_call", none⟩
  ∧ (some "" : Option String) ≠ none := by
  refine ⟨?_, by decide, by decide, by decide⟩
  intro pre tok1 mid tok2 post h1 h2
  exact detect_command_structure pre tok1
    (mid ++ '[' :: '[' :: (tok2 ++ ']' :: ']' :: post)) h1 h2

/-- Claim C8 counterexample: on `"[[press:1 ]]"` everything between the colon and
the closing brackets is `"1 "`, but `detect_command` strips the token and returns
value `"1"`. -/
theorem detect_command_value_stripped :
    detect_command "[[press:1 ]]" = some ⟨"press", some "1"⟩
      ∧ detect_command "[[press:1 ]]" ≠ some ⟨"press", some "1 "⟩ := by
  exact ⟨by decide, by decide⟩

theorem detect_command_first_occurrence_witness :
    detect_command "go [[press:1]] then [[press:2]]" = some ⟨"press", some "1"⟩ := by
  obtain ⟨h1, _, _, _⟩ := detect_command_first_occurrence
  have e := h1 "go ".data "press:1".data " then ".data "press:2".data []
    (by decide) (by decide)
  have e2 : String.mk ("go ".data ++ '[' :: '[' :: ("press:1".data ++ ']' :: ']' ::
      (" then ".data ++ '[' :: '[' :: ("press:2".data ++ ']' :: ']' :: []))))
      = "go [[press:1]] then [[press:2]]" := by decide
  rw [← e2, e]
  decide

/-! ## `src/commands.py::execute_command`

The Twilio REST client is modelled by an environment: the credential and
transfer-number variables (`os.getenv`, where both an unset variable and an
empty string are falsy) and a flag saying whether the provider call
`client.calls(call_sid).update(...)` raises (`TwilioRestException`).  The
Python function wraps none of its provider calls in `try/except`, so a raising
update is an exception propagating to the caller: the embedding returns
`Except.error`. -/

structure TwilioEnv where
  accountSid : Option String := none
  authToken : Option String := none
  transferNumber : Option String := none
  updateFails : Bool := false
deriving DecidableEq

inductive TwilioUpdate where
  | sendDigits (callSid digits : String)
  | redirectTwiml (callSid target : String)
  | setStatus (callSid status : String)
deriving DecidableEq

/-- One observable step of `execute_command`: a log line (`print`) or a
provider call that went through. -/
inductive ExecStep where
  | credsMissingLog
  | noTransferTargetLog
  | update (u : TwilioUpdate)
deriving DecidableEq

def execute_command (env : TwilioEnv) (cmd : Command) (call_sid : String) :
    Except String (List ExecStep) :=
  if env.accountSid.getD "" == "" || env.authToken.getD "" == "" then
    .ok [.credsMissingLog]
  else if cmd.action == "press" && cmd.value.getD "" != "" then
    if env.updateFails then .error "TwilioRestException"
    else .ok [.update (.sendDigits call_sid (cmd.value.getD ""))]
  else if cmd.action == "transfer" then
    let target := if cmd.value.getD "" == "" then env.transferNumber.getD ""
      else cmd.value.getD ""
    if target == "" then .ok [.noTransferTargetLog]
    else if env.updateFails then .error "TwilioRestException"
    else .ok [.update (.redirectTwiml call_sid target)]
  else if cmd.action == "end_call" then
    if env.updateFails then .error "TwilioRestException"
    else .ok [.update (.setStatus call_sid "completed")]
  else .ok []

/-- Claim C3 (code bug): with credentials present and the provider call raising,
`execute_command` has no `try/except` — the exception escapes to its caller
instead of being caught and logged inside the function (its callers in
`override_api.py` catch it and surface a 500). -/
theorem execute_command_propagates :
    execute_command ⟨some "AC", some "TK", none, true⟩ ⟨"press", some "1"⟩ "CA1"
      = .error "TwilioRestException"
    ∧ execute_command ⟨some "AC", some "TK", none, false⟩ ⟨"press", some "1"⟩ "CA1"
      = .ok [.update (.sendDigits "CA1" "1")] := by
  exact ⟨rfl, rfl⟩

/-! ## `src/events.py` — the per-call event bus

`_queues` is a dict from callSid to an `asyncio.Queue`.  Because a Python queue
is an object with identity (a subscriber that obtained the queue keeps reading
it after the dict entry is popped), queues are given explicit identities: the
registry maps a callSid to a queue id, `store` holds every queue ever created
(indexed by id), and fresh queues get id `nextId`.  A queue element is
`Option BEvent`, `none` being the end-of-stream sentinel. -/

/-- An event dictionary as published on a call's queue (timestamps abstracted). -/
structure BEvent where
  etype : String
  callSid : String
  payload : String := ""
deriving DecidableEq

structure BusState where
  nextId : Nat := 0
  registry : List (String × Nat) := []
  store : List (List (Option BEvent)) := []
deriving DecidableEq

/-- First-match association-list lookup (Python dict `get`). -/
def rget {α : Type} : List (String × α) → String → Option α
  | [], _ => none
  | (k, v) :: rest, key => if k == key then some v else rget rest key

/-- Update the value at an existing key (mutation of the stored object). -/
def rset {α : Type} : List (String × α) → String → α → List (String × α)
  | [], _, _ => []
  | (k, v) :: rest, key, nv =>
    if k == key then (k, nv) :: rest else (k, v) :: rset rest key nv

/-- Remove a key (Python dict `pop`). -/
def rerase {α : Type} : List (String × α) → String → List (String × α)
  | [], _ => []
  | (k, v) :: rest, key =>
    if k == key then rerase rest key else (k, v) :: rerase rest key

/-- Append an element to the queue stored at index `i`. -/
def appendAt : List (List (Option BEvent)) → Nat → Option BEvent →
    List (List (Option BEvent))
  | [], _, _ => []
  | q :: qs, 0, x => (q ++ [x]) :: qs
  | q :: qs, Nat.succ n, x => q :: appendAt qs n x

/-- `_queues.setdefault(call_sid, asyncio.Queue())`: returns the existing queue's
id or creates a fresh empty queue. -/
def setdefaultQ (s : BusState) (call_sid : String) : BusState × Nat :=
  match rget s.registry call_sid with
  | some qid => (s, qid)
  | none => (⟨s.nextId + 1, s.registry ++ [(call_sid, s.nextId)], s.store ++ [[]]⟩, s.nextId)

/-- `queue.put(x)` on the queue with id `qid`. -/
def putQ (s : BusState) (qid : Nat) (x : Option BEvent) : BusState :=
  {s with store := appendAt s.store qid x}

def start_session (s : BusState) (call_sid : String) : BusState :=
  let r := setdefaultQ s call_sid
  putQ r.1 r.2 (some ⟨"session_start", call_sid, ""⟩)

def end_session (s : BusState) (call_sid : String) : BusState :=
  match rget s.registry call_sid with
  | none => s
  | some qid =>
    let s1 := putQ s qid (some ⟨"session_end", call_sid, ""⟩)
    let s2 := putQ s1 qid none
    {s2 with registry := rerase s2.registry call_sid}

def publish_event (s : BusState) (call_sid : String) (e : BEvent) : BusState :=
  match rget s.registry call_sid with
  | none => s
  | some qid => putQ s qid (some e)

def subscribe (s : BusState) (call_sid : String) : BusState × Nat :=
  setdefaultQ s call_sid

/-- Any interleaving of event-bus API calls, for the frame property of
`end_session`. -/
inductive BusOp where
  | start (callSid : String)
  | endSess (callSid : String)
  | pub (callSid : String) (e : BEvent)
  | sub (callSid : String)
deriving DecidableEq

def applyOp (s : BusState) : BusOp → BusState
  | .start sid => start_session s sid
  | .endSess sid => end_session s sid
  | .pub sid e => publish_event s sid e
  | .sub sid => (subscribe s sid).1

def applyOps (s : BusState) (ops : List BusOp) : BusState := ops.foldl applyOp s

/-- Well-formedness of a bus state: `store` has one entry per allocated id, every
registered id is allocated, and no two keys share a queue. -/
def busWf (s : BusState) : Prop :=
  s.store.length = s.nextId ∧ (∀ p ∈ s.registry, p.2 < s.nextId)
    ∧ (s.registry.map Prod.snd).Nodup

/-- A queue id no longer reachable from the registry. -/
def deadQ (s : BusState) (qid : Nat) : Prop :=
  qid < s.nextId ∧ s.store.length = s.nextId
    ∧ (∀ p ∈ s.registry, p.2 < s.nextId) ∧ (∀ p ∈ s.registry, p.2 ≠ qid)

theorem appendAt_length (l : List (List (Option BEvent))) (i : Nat) (x : Option BEvent) :
    (appendAt l i x).length = l.length := by
  induction l generalizing i with
  | nil => rfl
  | cons q qs ih =>
    cases i with
    | zero => rfl
    | succ n => simp [appendAt, ih]

theorem appendAt_get_ne (l : List (List (Option BEvent))) (i j : Nat) (x : Option BEvent)
    (h : i ≠ j) : (appendAt l i x).get? j = l.get? j := by
  induction l generalizing i j with
  | nil => rfl
  | cons q qs ih =>
    cases i with
    | zero =>
      cases j with
      | zero => exact absurd rfl h
      | succ m => rfl
    | succ n =>
      cases j with
      | zero => rfl
      | succ m => simpa [appendAt] using ih n m fun e => h (by rw [e])

theorem appendAt_get_self (l : List (List (Option BEvent))) (i : Nat) (x : Option BEvent)
    (q : List (Option BEvent)) (h : l.get? i = some q) :
    (appendAt l i x).get? i = some (q ++ [x]) := by
  induction l generalizing i with
  | nil => simp at h
  | cons q0 qs ih =>
    cases i with
    | zero =>
      simp only [List.get?] at h
      cases h
      rfl
    | succ n => simpa [appendAt] using ih n (by simpa using h)

theorem rget_mem {α : Type} (l : List (String × α)) (key : String) (v : α)
    (h : rget l key = some v) : (key, v) ∈ l := by
  induction l with
  | nil => simp [rget] at h
  | cons p rest ih =>
    rw [rget] at h
    by_cases hk : (p.1 == key) = true
    · rw [if_pos hk] at h
      have hkey : p.1 = key := by simpa using hk
      have hv : p.2 = v := by simpa using h
      have hp : p = (key, v) := by
        cases p
        simp_all
      rw [hp]
      exact List.mem_cons_self _ _
    · rw [if_neg hk] at h
      exact List.mem_cons_of_mem _ (ih h)

theorem mem_rerase {α : Type} (l : List (String × α)) (key : String) (p : String × α)
    (h : p ∈ rerase l key) : p ∈ l ∧ p.1 ≠ key := by
  induction l with
  | nil => simp [rerase] at h
  | cons q rest ih =>
    rw [rerase] at h
    by_cases hk : (q.1 == key) = true
    · rw [if_pos hk] at h
      obtain ⟨h1, h2⟩ := ih h
      exact ⟨List.mem_cons_of_mem _ h1, h2⟩
    · rw [if_neg hk] at h
      rcases List.mem_cons.mp h with h1 | h1
      · refine ⟨by rw [h1]; exact List.mem_cons_self _ _, ?_⟩
        rw [h1]
        simpa using hk
      · obtain ⟨h2, h3⟩ := ih h1
        exact ⟨List.mem_cons_of_mem _ h2, h3⟩

theorem rget_rerase {α : Type} (l : List (String × α)) (key : String) :
    rget (rerase l key) key = none := by
  induction l with
  | nil => rfl
  | cons q rest ih =>
    rw [rerase]
    by_cases hk : q.1 == key
    · rw [if_pos hk]
      exact ih
    · rw [if_neg hk, rget, if_neg hk]
      exact ih

theorem nodupSnd_unique {α : Type} (l : List (String × α)) [DecidableEq α]
    (h : (l.map Prod.snd).Nodup) (a c : String) (b : α)
    (h1 : (a, b) ∈ l) (h2 : (c, b) ∈ l) : a = c := by
  induction l with
  | nil => simp at h1
  | cons p rest ih =>
    simp only [List.map_cons, List.nodup_cons] at h
    rcases List.mem_cons.mp h1 with e1 | e1 <;> rcases List.mem_cons.mp h2 with e2 | e2
    · exact congrArg Prod.fst (e1.trans e2.symm)
    · exfalso
      apply h.1
      have hb : p.2 = b := by rw [← e1]
      rw [hb]
      exact List.mem_map_of_mem Prod.snd e2
    · exfalso
      apply h.1
      have hb : p.2 = b := by rw [← e2]
      rw [hb]
      exact List.mem_map_of_mem Prod.snd e1
    · exact ih h.2 e1 e2

theorem setdefaultQ_dead (s : BusState) (qid : Nat) (sid : String) (h : deadQ s qid) :
    deadQ (setdefaultQ s sid).1 qid
      ∧ (setdefaultQ s sid).1.store.get? qid = s.store.get? qid
      ∧ (setdefaultQ s sid).2 ≠ qid := by
  obtain ⟨h1, h2, h3, h4⟩ := h
  cases hr : rget s.registry sid with
  | some qid2 =>
    refine ⟨?_, ?_, ?_⟩
    · simp only [setdefaultQ, hr]
      exact ⟨h1, h2, h3, h4⟩
    · simp [setdefaultQ, hr]
    · simp only [setdefaultQ, hr]
      exact h4 _ (rget_mem _ _ _ hr)
  | none =>
    simp only [setdefaultQ, hr]
    refine ⟨⟨Nat.lt_succ_of_lt h1, ?_, ?_, ?_⟩, ?_, ?_⟩
    · simp [h2]
    · intro p hp
      rcases List.mem_append.mp hp with hp | hp
      · exact Nat.lt_succ_of_lt (h3 p hp)
      · simp only [List.mem_singleton] at hp
        rw [hp]
        exact Nat.lt_succ_self _
    · intro p hp
      rcases List.mem_append.mp hp with hp | hp
      · exact h4 p hp
      · simp only [List.mem_singleton] at hp
        rw [hp]
        exact Nat.ne_of_gt h1
    · exact List.get?_append (h2 ▸ h1)
    · exact Nat.ne_of_gt h1

theorem putQ_dead (s : BusState) (qid qid2 : Nat) (x : Option BEvent)
    (h : deadQ s qid) (hne : qid2 ≠ qid) :
    deadQ (putQ s qid2 x) qid ∧ (putQ s qid2 x).store.get? qid = s.store.get? qid := by
  obtain ⟨h1, h2, h3, h4⟩ := h
  refine ⟨⟨h1, ?_, h3, h4⟩, appendAt_get_ne _ _ _ _ hne⟩
  simp [putQ, appendAt_length, h2]

theorem applyOp_dead (s : BusState) (qid : Nat) (op : BusOp) (h : deadQ s qid) :
    deadQ (applyOp s op) qid ∧ (applyOp s op).store.get? qid = s.store.get? qid := by
  cases op with
  | start sid =>
    obtain ⟨hd, hget, hne⟩ := setdefaultQ_dead s qid sid h
    obtain ⟨hd2, hget2⟩ := putQ_dead _ qid _ _ hd hne
    exact ⟨hd2, hget2.trans hget⟩
  | endSess sid =>
    cases hr : rget s.registry sid with
    | none =>
      refine ⟨?_, ?_⟩
      · simp only [applyOp, end_session, hr]
        exact h
      · simp [applyOp, end_session, hr]
    | some qid2 =>
      have hne : qid2 ≠ qid := h.2.2.2 _ (rget_mem _ _ _ hr)
      obtain ⟨hd1, hg1⟩ := putQ_dead s qid qid2 (some ⟨"session_end", sid, ""⟩) h hne
      obtain ⟨hd2, hg2⟩ := putQ_dead _ qid qid2 none hd1 hne
      simp only [applyOp, end_session, hr]
      refine ⟨⟨hd2.1, hd2.2.1, ?_, ?_⟩, hg2.trans hg1⟩
      · intro p hp
        exact hd2.2.2.1 p (mem_rerase _ _ _ hp).1
      · intro p hp
        exact hd2.2.2.2 p (mem_rerase _ _ _ hp).1
  | pub sid e =>
    cases hr : rget s.registry sid with
    | none =>
      refine ⟨?_, ?_⟩
      · simp only [applyOp, publish_event, hr]
        exact h
      · simp [applyOp, publish_event, hr]
    | some qid2 =>
      have hne : qid2 ≠ qid := h.2.2.2 _ (rget_mem _ _ _ hr)
      have := putQ_dead s qid qid2 (some e) h hne
      simpa only [applyOp, publish_event, hr] using this
  | sub sid =>
    obtain ⟨hd, hget, _⟩ := setdefaultQ_dead s qid sid h
    exact ⟨hd, hget⟩

theorem applyOps_dead (ops : List BusOp) (s : BusState) (qid : Nat) (h : deadQ s qid) :
    (applyOps s ops).store.get? qid = s.store.get? qid := by
  induction ops generalizing s with
  | nil => rfl
  | cons op rest ih =>
    obtain ⟨hd, hg⟩ := applyOp_dead s qid op h
    calc (applyOps (applyOp s op) rest).store.get? qid
        = (applyOp s op).store.get? qid := ih _ hd
      _ = s.store.get? qid := hg

/-- Claim C9: on a call id with a live queue, `end_session` enqueues — in order —
a `session_end` event and then the `none` sentinel, then removes the queue from
the registry; afterwards no interleaving of bus operations (`start_session`,
`end_session`, `publish_event`, `subscribe`) ever appends to that queue again, so
a subscriber reading it up to the sentinel observes no further events. -/
theorem end_session_contract (s : BusState) (call_sid : String) (qid : Nat)
    (q : List (Option BEvent)) (hwf : busWf s)
    (hr : rget s.registry call_sid = some qid) (hq : s.store.get? qid = some q) :
    (end_session s call_sid).store.get? qid
        = some (q ++ [some ⟨"session_end", call_sid, ""⟩, none])
    ∧ rget (end_session s call_sid).registry call_sid = none
    ∧ ∀ ops, (applyOps (end_session s call_sid) ops).store.get? qid
        = (end_session s call_sid).store.get? qid := by
  obtain ⟨hw1, hw2, hw3⟩ := hwf
  have hqlt : qid < s.nextId := hw2 _ (rget_mem _ _ _ hr)
  refine ⟨?_, ?_, ?_⟩
  · have g1 := appendAt_get_self s.store qid (some ⟨"session_end", call_sid, ""⟩) q hq
    have g2 := appendAt_get_self _ qid none _ g1
    simp only [end_session, hr, putQ]
    simpa using g2
  · simp only [end_session, hr, putQ]
    exact rget_rerase _ _
  · intro ops
    have hdead : deadQ (end_session s call_sid) qid := by
      simp only [end_session, hr, putQ]
      refine ⟨hqlt, ?_, ?_, ?_⟩
      · simp [appendAt_length, hw1]
      · intro p hp
        exact hw2 p (mem_rerase _ _ _ hp).1
      · intro p hp
        obtain ⟨hmem, hkey⟩ := mem_rerase _ _ _ hp
        intro he
        exact hkey (nodupSnd_unique s.registry hw3 p.1 call_sid qid
          (by rw [← he]; exact hmem) (rget_mem _ _ _ hr))
    exact applyOps_dead ops _ qid hdead

theorem end_session_contract_witness :
    (end_session (start_session {} "CA1") "CA1").store.get? 0
        = some [some ⟨"session_start", "CA1", ""⟩, some ⟨"session_end", "CA1", ""⟩, none]
    ∧ rget (end_session (start_session {} "CA1") "CA1").registry "CA1" = none
    ∧ (applyOps (end_session (start_session {} "CA1") "CA1")
          [.pub "CA1" ⟨"transcript", "CA1", "late"⟩]).store.get? 0
        = (end_session (start_session {} "CA1") "CA1").store.get? 0 := by
  obtain ⟨h1, h2, h3⟩ := end_session_contract (start_session {} "CA1") "CA1" 0
    [some ⟨"session_start", "CA1", ""⟩]
    (by rw [show start_session {} "CA1"
            = ⟨1, [("CA1", 0)], [[some ⟨"session_start", "CA1", ""⟩]]⟩ from rfl]
        exact ⟨rfl, by decide, by decide⟩)
    (by decide) (by decide)
  exact ⟨by simpa using h1, h2, h3 _⟩

/-! ## `src/backend/openai_ws.py` — `OpenAISession`

The session object: upstream websocket presence (`self.ws`, set on
`__aenter__`, checked by every send), conversation history and the
clarification/feedback flags.  Connection-configuration strings (model id,
voice, instructions) play no role in any claim and are not tracked.  Socket
sends are modelled as reliable effect emissions; the `500` branches of the
override handlers correspond to transport exceptions outside this model. -/

structure Sess where
  ws : Bool := false
  history : List (String × String) := []
  awaiting_user_input : Bool := false
  query_prompt : Option String := none
  require_feedback : Bool := false
  awaiting_feedback : Bool := false
  pending_response : Option String := none
  skip_next_feedback : Bool := false
deriving DecidableEq

/-- A decoded outbound model message as consumed by
`InterceptWebSocket.send_text` (`message.get("text", "")`,
`message.get("last", False)`). -/
structure OutMsg where
  text : Option String := none
  last : Bool := false
deriving DecidableEq

/-- A payload handed to `send_text`: either it parses as JSON or
`json.loads` raises. -/
inductive Payload where
  | json (m : OutMsg)
  | raw (data : String)
deriving DecidableEq

/-- Outbound text frame of the telephony protocol. -/
structure TwilioTextFrame where
  ftype : String
  token : String
  last : Bool
  interruptible : Bool
deriving DecidableEq

/-- The fixed hold frame sent by the `request_user` flow. -/
def holdFrame : TwilioTextFrame :=
  ⟨"text", "Please hold while I check that.", true, false⟩

/-- An event dictionary published via `publish_event` (timestamps abstracted). -/
inductive Ev where
  | query (callSid prompt : String)
  | commandExecuted (callSid action : String) (value : Option String)
  | transcript (callSid speaker text : String)
  | assistantOverride (callSid text : String)
  | sessionEnd (callSid : String)
  | sessionTransfer (callSid target : String)
  | queryResponse (callSid text : String)
deriving DecidableEq

/-- Observable side effects of the relay, the proxy handlers and the override
surface, in program order. -/
inductive Eff where
  | fwdRaw (data : String)
  | fwdJson (m : OutMsg)
  | sendFrame (f : TwilioTextFrame)
  | publish (e : Ev)
  | execCmd (c : Command) (callSid : String)
  | cancelModel
  | toModelUser (text : String)
  | toModelAssistant (text : String)
  | toModelSupervisor (text : String)
  | modelCtl (msg : String)
  | logCmd (callSid : Option String) (action : String) (value : Option String)
  | logOverride (callSid kind : String) (value : Option String)
  | logTranscript (callSid speaker text : String)
  | logLatency (callSid metric : String)
  | busStart (callSid : String)
  | busEnd (callSid : String)
deriving DecidableEq

/-- `OpenAISession.send_text`: a caller turn (`conversation.item.create`,
role user) — no-op without a websocket. -/
def OpenAISession.send_text (s : Sess) (text : String) : Sess × List Eff :=
  if s.ws then ({s with history := s.history ++ [("user", text)]}, [.toModelUser text])
  else (s, [])

/-- `OpenAISession.inject_assistant_text`. -/
def OpenAISession.inject_assistant_text (s : Sess) (text : String) : Sess × List Eff :=
  if s.ws then
    ({s with history := s.history ++ [("assistant", text)]}, [.toModelAssistant text])
  else (s, [])

/-- `OpenAISession.inject_supervisor_text`: the answer goes upstream as a
user-role item prefixed `"supervisor: "` and into history with role
supervisor. -/
def OpenAISession.inject_supervisor_text (s : Sess) (text : String) : Sess × List Eff :=
  if s.ws then
    ({s with history := s.history ++ [("supervisor", text)]},
      [.toModelSupervisor ("supervisor: " ++ text)])
  else (s, [])

/-- `OpenAISession.cancel_response`: `response.cancel` upstream when connected. -/
def OpenAISession.cancel_response (s : Sess) : List Eff :=
  if s.ws then [.cancelModel] else []

/-! ## `src/backend/relay_ws.py` — `InterceptWebSocket`

State per interceptor: `call_sid` (learned from inbound frames), the `suppress`
flag, and the shared `ACTIVE_SESSIONS` registry the `request_user` branch
mutates through. -/

structure RelayState where
  callSid : Option String := none
  suppress : Bool := false
  sessions : List (String × Sess) := []
deriving DecidableEq

/-- Modelled from the spec: `backend/commands.py` is imported by
`backend/relay_ws.py` but absent from the source tree (only its callers and
unit tests are present). Spec §4.1: the action set is
press|transfer|end_call|request_user; an unknown action discards the match. -/
def knownSpec (l : List Char) : Bool :=
  l == "press".data || l == "transfer".data || l == "end_call".data
    || l == "request_user".data

/-- Modelled from the spec: token parsing of the absent
`backend/commands.py::detect_command` — value is everything between the colon
and the closing brackets, may be empty (distinct from absent). -/
def parseTokSpec (tok : List Char) : Option Command :=
  let av := splitColon tok
  if knownSpec av.1 then some ⟨String.mk av.1, av.2.map String.mk⟩ else none

/-- Modelled from the spec: the absent `backend/commands.py::detect_command` —
recognizes the first occurrence of `[[action]]` or `[[action:value]]`. -/
def detect_command_spec (text : String) : Option Command :=
  (firstToken text.data).bind parseTokSpec

/-- Modelled from the spec: the absent `backend/commands.py::execute_command`
talks to the external telephony control interface; provider-call failures are
caught and logged inside it and never raise (§4.1), so it is one infallible
external-command effect. -/
def execute_command_spec (c : Command) (callSid : String) : List Eff :=
  [.execCmd c callSid]

/-- `InterceptWebSocket.send_text`: JSON decode (non-JSON forwarded verbatim),
the suppression state machine, command detection, the `request_user` hold flow
and dispatch of other commands. -/
def InterceptWebSocket.send_text (st : RelayState) (p : Payload) :
    RelayState × List Eff :=
  match p with
  | .raw data => (st, [.fwdRaw data])
  | .json m =>
    if st.suppress then
      (if m.last then {st with suppress := false} else st, [])
    else
      match detect_command_spec (m.text.getD "") with
      | none => (st, [.fwdJson m])
      | some cmd =>
        if cmd.action == "request_user" then
          match st.callSid with
          | none =>
            ({st with suppress := true},
              [.sendFrame holdFrame, .logCmd none "request_user" cmd.value])
          | some sid =>
            match rget st.sessions sid with
            | none =>
              ({st with suppress := true},
                [.publish (.query sid (cmd.value.getD "")), .sendFrame holdFrame,
                  .logCmd (some sid) "request_user" cmd.value])
            | some sess =>
              ({st with
                  sessions := rset st.sessions sid
                    {sess with awaiting_user_input := true, query_prompt := cmd.value},
                  suppress := true},
                [.publish (.query sid (cmd.value.getD ""))]
                  ++ OpenAISession.cancel_response sess
                  ++ [.sendFrame holdFrame, .logCmd (some sid) "request_user" cmd.value])
        else
          match st.callSid with
          | none => (if m.last then st else {st with suppress := true}, [])
          | some sid =>
            (if m.last then st else {st with suppress := true},
              [.publish (.commandExecuted sid cmd.action cmd.value)]
                ++ execute_command_spec cmd sid
                ++ [.logCmd (some sid) cmd.action cmd.value])

/-- Sequential processing of outbound payloads by one interceptor. -/
def processMsgs (st : RelayState) : List Payload → RelayState × List Eff
  | [] => (st, [])
  | p :: rest =>
    let r := InterceptWebSocket.send_text st p
    let rr := processMsgs r.1 rest
    (rr.1, r.2 ++ rr.2)

/-- No frame of any kind reaches the telephony socket in this trace. -/
def noForward (effs : List Eff) : Bool :=
  effs.all fun e =>
    match e with
    | .fwdRaw _ => false
    | .fwdJson _ => false
    | .sendFrame _ => false
    | _ => true

/-- `execute_command` is never invoked in this trace. -/
def noExec (effs : List Eff) : Bool :=
  effs.all fun e =>
    match e with
    | .execCmd _ _ => false
    | _ => true

/-- Claim C10: a payload that `json.loads` rejects is forwarded verbatim to the
telephony socket with no command detection and no state change, in every
interceptor state — including SUPPRESSED (`st.suppress` arbitrary). -/
theorem send_text_non_json (st : RelayState) (data : String) :
    InterceptWebSocket.send_text st (.raw data) = (st, [.fwdRaw data]) := rfl

theorem send_text_suppressed (st : RelayState) (m : OutMsg) (h : st.suppress = true) :
    InterceptWebSocket.send_text st (.json m)
      = (if m.last then {st with suppress := false} else st, []) := by
  simp [InterceptWebSocket.send_text, h]

theorem send_text_command (st : RelayState) (m : OutMsg) (c : Command)
    (h0 : st.suppress = false) (h1 : detect_command_spec (m.text.getD "") = some c)
    (h2 : c.action ≠ "request_user") (h3 : m.last = false) :
    (InterceptWebSocket.send_text st (.json m)).1 = {st with suppress := true}
      ∧ noForward (InterceptWebSocket.send_text st (.json m)).2 = true := by
  have h2' : (c.action == "request_user") = false := beq_eq_false_iff_ne.mpr h2
  cases hcs : st.callSid with
  | none =>
    simp [InterceptWebSocket.send_text, h0, h1, h2', h3, hcs, noForward]
  | some sid =>
    simp [InterceptWebSocket.send_text, h0, h1, h2', h3, hcs, noForward,
      execute_command_spec]

theorem processMsgs_suppressed (st : RelayState) (ms : List OutMsg)
    (h : st.suppress = true) (hall : ∀ m ∈ ms, m.last = false) :
    processMsgs st (ms.map .json) = (st, []) := by
  induction ms with
  | nil => rfl
  | cons m rest ih =>
    have hm := hall m (List.mem_cons_self _ _)
    simp only [List.map_cons, processMsgs]
    rw [send_text_suppressed st m h, hm]
    simp [ih fun m' hm' => hall m' (List.mem_cons_of_mem _ hm')]

theorem processMsgs_append (st : RelayState) (l1 l2 : List Payload) :
    processMsgs st (l1 ++ l2)
      = ((processMsgs (processMsgs st l1).1 l2).1,
          (processMsgs st l1).2 ++ (processMsgs (processMsgs st l1).1 l2).2) := by
  induction l1 generalizing st with
  | nil => simp [processMsgs]
  | cons p rest ih => simp [processMsgs, ih]

/-- Claim C4: once a command other than `request_user` is detected in an outbound
model message with `last=false`, the interceptor is SUPPRESSED (still suppressed
after any run of non-final messages), none of the messages up to and including
the next `last=true` message is forwarded to the telephony socket, the final
message itself is dropped, and the state is back to NORMAL afterwards. -/
theorem suppression_until_final (st : RelayState) (m : OutMsg) (c : Command)
    (ms : List OutMsg) (mf : OutMsg)
    (h0 : st.suppress = false)
    (h1 : detect_command_spec (m.text.getD "") = some c)
    (h2 : c.action ≠ "request_user")
    (h3 : m.last = false)
    (h4 : ∀ m' ∈ ms, m'.last = false)
    (h5 : mf.last = true) :
    (processMsgs st ((m :: ms).map .json)).1.suppress = true
    ∧ (processMsgs st ((m :: ms ++ [mf]).map .json)).1.suppress = false
    ∧ noForward (processMsgs st ((m :: ms ++ [mf]).map .json)).2 = true := by
  obtain ⟨hs1, hnf1⟩ := send_text_command st m c h0 h1 h2 h3
  have hs1' : (InterceptWebSocket.send_text st (.json m)).1.suppress = true := by
    rw [hs1]
  have hmid := processMsgs_suppressed (InterceptWebSocket.send_text st (.json m)).1
    ms hs1' h4
  have hsplit : (m :: ms ++ [mf]).map Payload.json
      = Payload.json m :: (ms.map Payload.json ++ [Payload.json mf]) := by simp
  refine ⟨?_, ?_, ?_⟩
  · simp only [List.map_cons, processMsgs]
    rw [hmid]
    exact hs1'
  · rw [hsplit]
    simp only [processMsgs]
    rw [processMsgs_append, hmid]
    simp only [processMsgs]
    rw [send_text_suppressed _ mf hs1', h5]
    simp
  · rw [hsplit]
    simp only [processMsgs]
    rw [processMsgs_append, hmid]
    simp only [processMsgs]
    rw [send_text_suppressed _ mf hs1', h5]
    simp only [if_true]
    simp [noForward] at hnf1 ⊢
    exact hnf1

theorem suppression_until_final_witness :
    (processMsgs ⟨some "CA1", false, []⟩
        ([⟨some "ok [[press:1]] done", false⟩, ⟨some "more", false⟩].map .json)).1.suppress
      = true
    ∧ (processMsgs ⟨some "CA1", false, []⟩
        ([⟨some "ok [[press:1]] done", false⟩, ⟨some "more", false⟩,
          ⟨none, true⟩].map .json)).1.suppress = false
    ∧ noForward (processMsgs ⟨some "CA1", false, []⟩
        ([⟨some "ok [[press:1]] done", false⟩, ⟨some "more", false⟩,
          ⟨none, true⟩].map .json)).2 = true := by
  have h := suppression_until_final ⟨some "CA1", false, []⟩
    ⟨some "ok [[press:1]] done", false⟩ ⟨"press", some "1"⟩
    [⟨some "more", false⟩] ⟨none, true⟩
    rfl (by decide) (by decide) rfl (by decide) rfl
  exact h

/-- Claim C6: detection of a `request_user` command in an outbound model message
(NORMAL state, live call, registered session with an open upstream socket)
publishes exactly one `query` event carrying the prompt, sets the session's
`awaiting_user_input` and `query_prompt`, cancels the in-flight model response,
sends exactly one fixed hold frame, transitions to SUPPRESSED, and never calls
`execute_command`. -/
theorem request_user_flow (st : RelayState) (m : OutMsg) (c : Command) (sid : String)
    (sess : Sess)
    (h0 : st.suppress = false) (h1 : st.callSid = some sid)
    (h2 : rget st.sessions sid = some sess) (h3 : sess.ws = true)
    (h4 : detect_command_spec (m.text.getD "") = some c)
    (h5 : c.action = "request_user") :
    InterceptWebSocket.send_text st (.json m)
      = ({st with
            sessions := rset st.sessions sid
              {sess with awaiting_user_input := true, query_prompt := c.value},
            suppress := true},
          [.publish (.query sid (c.value.getD "")), .cancelModel,
            .sendFrame holdFrame, .logCmd (some sid) "request_user" c.value])
    ∧ noExec (InterceptWebSocket.send_text st (.json m)).2 = true := by
  have hmain : InterceptWebSocket.send_text st (.json m)
      = ({st with
            sessions := rset st.sessions sid
              {sess with awaiting_user_input := true, query_prompt := c.value},
            suppress := true},
          [.publish (.query sid (c.value.getD "")), .cancelModel,
            .sendFrame holdFrame, .logCmd (some sid) "request_user" c.value]) := by
    simp [InterceptWebSocket.send_text, h0, h1, h2, h4, h5,
      OpenAISession.cancel_response, h3]
  refine ⟨hmain, ?_⟩
  rw [hmain]
  rfl

theorem request_user_flow_witness :
    InterceptWebSocket.send_text
        ⟨some "CA1", false, [("CA1", {ws := true})]⟩
        (.json ⟨some "[[request_user:What is the account number?]]", false⟩)
      = (⟨some "CA1", true, [("CA1",
            {ws := true, awaiting_user_input := true,
              query_prompt := some "What is the account number?"})]⟩,
          [.publish (.query "CA1" "What is the account number?"), .cancelModel,
            .sendFrame holdFrame,
            .logCmd (some "CA1") "request_user" (some "What is the account number?")]) := by
  have h := request_user_flow ⟨some "CA1", false, [("CA1", {ws := true})]⟩
    ⟨some "[[request_user:What is the account number?]]", false⟩
    ⟨"request_user", some "What is the account number?"⟩ "CA1" {ws := true}
    rfl rfl (by decide) rfl (by decide) rfl
  exact h.1

/-! ## `src/backend/openai_ws.py::proxy_call` — the inbound (telephony → model) task

One decoded inbound JSON frame; `none` fields are absent keys.
`interruptible`/`preemptible` carry the telephony booleans
(`event.get("interruptible") is False`, truthy `event.get("preemptible")`). -/

structure InEvent where
  event : Option String := none
  callSid : Option String := none
  streamSid : Option String := none
  etype : Option String := none
  voicePrompt : Option String := none
  interruptible : Option Bool := none
  preemptible : Option Bool := none
deriving DecidableEq

/-- The `session` dict of `proxy_call` (`request_ts`/`response_logged` with the
clock value abstracted to presence). -/
structure ProxyState where
  callSid : Option String := none
  streamSid : Option String := none
  requestPending : Bool := false
  responseLogged : Bool := false
deriving DecidableEq

structure HIResult where
  ps : ProxyState
  sess : Sess
  effs : List Eff
  stop : Bool
deriving DecidableEq

/-- callSid registration: the first frame carrying a callSid starts the event-bus
session and registers the session in `ACTIVE_SESSIONS` (registry insertion is an
effect here; the override surface below acts on a registry value). -/
def registerStep (ps : ProxyState) (ev : InEvent) : ProxyState × List Eff :=
  match ev.callSid with
  | some sid =>
    if ps.callSid = none then ({ps with callSid := some sid}, [.busStart sid])
    else (ps, [])
  | none => (ps, [])

def streamStep (ps : ProxyState) (ev : InEvent) : ProxyState :=
  match ev.streamSid with
  | some s => {ps with streamSid := some s}
  | none => ps

/-- The `type == "prompt"` branch: publish/log the caller transcript and,
unless `awaiting_user_input`, forward the speech to the model session. -/
def promptStep (ps : ProxyState) (sess : Sess) (ev : InEvent) :
    ProxyState × Sess × List Eff :=
  if ev.etype = some "prompt" then
    let text := ev.voicePrompt.getD ""
    let tEffs :=
      match ps.callSid with
      | some sid => [Eff.publish (.transcript sid "caller" text),
          Eff.logTranscript sid "caller" text]
      | none => []
    if sess.awaiting_user_input then (ps, sess, tEffs)
    else
      let fwd := OpenAISession.send_text sess text
      match ps.callSid with
      | some sid =>
        ({ps with requestPending := true, responseLogged := false}, fwd.1,
          tEffs ++ fwd.2 ++ [Eff.logLatency sid "stt_to_gpt_ms"])
      | none => (ps, fwd.1, tEffs ++ fwd.2)
  else (ps, sess, [])

/-- Barge-in: a frame with `interruptible is False` or a truthy `preemptible`
cancels the in-flight response. -/
def bargeStep (sess : Sess) (ev : InEvent) : List Eff :=
  if ev.interruptible == some false || ev.preemptible == some true then
    OpenAISession.cancel_response sess
  else []

/-- One iteration of the `from_twilio` loop body on a decoded frame. -/
def handleInbound (ps : ProxyState) (sess : Sess) (ev : InEvent) : HIResult :=
  if ev.event = some "disconnect" then
    ⟨ps, sess, [.modelCtl "turn_detection_off"], true⟩
  else
    let r1 := registerStep ps ev
    let ps2 := streamStep r1.1 ev
    let r3 := promptStep ps2 sess ev
    ⟨r3.1, r3.2.1, r1.2 ++ r3.2.2 ++ bargeStep r3.2.1 ev, false⟩

/-- The `from_twilio` loop over a sequence of inbound frames (stops at a
disconnect frame). -/
def runInbound (ps : ProxyState) (sess : Sess) :
    List InEvent → ProxyState × Sess × List Eff
  | [] => (ps, sess, [])
  | ev :: rest =>
    let r := handleInbound ps sess ev
    if r.stop then (r.ps, r.sess, r.effs)
    else
      let rr := runInbound r.ps r.sess rest
      (rr.1, rr.2.1, r.effs ++ rr.2.2)

/-- No caller speech reaches the upstream model session in this trace. -/
def noUserForward (effs : List Eff) : Bool :=
  effs.all fun e =>
    match e with
    | .toModelUser _ => false
    | _ => true

/-! ## `src/backend/override_api.py` — the five override handlers

Each handler returns the updated `ACTIVE_SESSIONS` registry, its effect trace
and the HTTP outcome.  Payload validation (pydantic digit/phone patterns)
happens before these bodies run and is outside the claims. -/

inductive Resp where
  | ok
  | notFound
  | badRequest
deriving DecidableEq

def override_text (reg : List (String × Sess)) (callSid text : String) :
    List (String × Sess) × List Eff × Resp :=
  match rget reg callSid with
  | none => (reg, [], .notFound)
  | some sess =>
    let r := OpenAISession.inject_assistant_text sess text
    (rset reg callSid r.1,
      r.2 ++ [.publish (.assistantOverride callSid text),
        .logOverride callSid "text" (some text)], .ok)

def override_dtmf (reg : List (String × Sess)) (callSid digit : String) :
    List (String × Sess) × List Eff × Resp :=
  (reg, execute_command_spec ⟨"press", some digit⟩ callSid
      ++ [.publish (.commandExecuted callSid "press" (some digit)),
        .logOverride callSid "dtmf" (some digit)], .ok)

def override_end (reg : List (String × Sess)) (callSid : String) :
    List (String × Sess) × List Eff × Resp :=
  (reg, execute_command_spec ⟨"end_call", none⟩ callSid
      ++ [.publish (.sessionEnd callSid), .busEnd callSid,
        .logOverride callSid "end_call" none], .ok)

def override_transfer (reg : List (String × Sess)) (callSid target : String) :
    List (String × Sess) × List Eff × Resp :=
  (reg, execute_command_spec ⟨"transfer", some target⟩ callSid
      ++ [.publish (.sessionTransfer callSid target),
        .logOverride callSid "transfer" (some target)], .ok)

def override_clarification (reg : List (String × Sess)) (callSid answer : String) :
    List (String × Sess) × List Eff × Resp :=
  match rget reg callSid with
  | none => (reg, [], .notFound)
  | some sess =>
    if sess.awaiting_user_input then
      let r := OpenAISession.inject_supervisor_text sess answer
      (rset reg callSid {r.1 with awaiting_user_input := false, query_prompt := none},
        r.2 ++ [.publish (.queryResponse callSid answer),
          .logOverride callSid "clarification" (some answer)], .ok)
    else (reg, [], .badRequest)

theorem rget_rset_self {α : Type} (l : List (String × α)) (key : String) (v w : α)
    (h : rget l key = some w) : rget (rset l key v) key = some v := by
  induction l with
  | nil => simp [rget] at h
  | cons p rest ih =>
    rw [rget] at h
    rw [rset]
    by_cases hk : (p.1 == key) = true
    · rw [if_pos hk, rget, if_pos hk]
    · rw [if_neg hk] at h
      rw [if_neg hk, rget, if_neg hk]
      exact ih h

theorem noUserForward_append (a b : List Eff) :
    noUserForward (a ++ b) = (noUserForward a && noUserForward b) := by
  simp [noUserForward, List.all_append]

theorem registerStep_noUser (ps : ProxyState) (ev : InEvent) :
    noUserForward (registerStep ps ev).2 = true := by
  cases hc : ev.callSid with
  | none => simp [registerStep, hc, noUserForward]
  | some sid =>
    by_cases hp : ps.callSid = none
    · simp [registerStep, hc, hp, noUserForward]
    · simp [registerStep, hc, hp, noUserForward]

theorem bargeStep_noUser (sess : Sess) (ev : InEvent) :
    noUserForward (bargeStep sess ev) = true := by
  rw [bargeStep]
  by_cases hb : (ev.interruptible == some false || ev.preemptible == some true) = true
  · rw [if_pos hb, OpenAISession.cancel_response]
    by_cases hw : sess.ws = true
    · rw [if_pos hw]
      rfl
    · rw [if_neg hw]
      rfl
  · rw [if_neg hb]
    rfl

theorem promptStep_awaiting (ps : ProxyState) (sess : Sess) (ev : InEvent)
    (h : sess.awaiting_user_input = true) :
    (promptStep ps sess ev).1 = ps ∧ (promptStep ps sess ev).2.1 = sess
      ∧ noUserForward (promptStep ps sess ev).2.2 = true := by
  by_cases he : ev.etype = some "prompt"
  · cases hc : ps.callSid with
    | none => simp [promptStep, he, h, hc, noUserForward]
    | some sid => simp [promptStep, he, h, hc, noUserForward]
  · simp [promptStep, he, noUserForward]

theorem promptStep_nonprompt (ps : ProxyState) (sess : Sess) (ev : InEvent)
    (he : ev.etype ≠ some "prompt") :
    promptStep ps sess ev = (ps, sess, []) := by
  simp [promptStep, he]

theorem promptStep_forward (ps : ProxyState) (sess : Sess) (ev : InEvent)
    (hws : sess.ws = true) (he : ev.etype = some "prompt")
    (h : sess.awaiting_user_input = false) :
    Eff.toModelUser (ev.voicePrompt.getD "") ∈ (promptStep ps sess ev).2.2 := by
  cases hc : ps.callSid with
  | none => simp [promptStep, he, h, hc, OpenAISession.send_text, hws]
  | some sid => simp [promptStep, he, h, hc, OpenAISession.send_text, hws]

theorem handleInbound_sess_noUser (ps : ProxyState) (sess : Sess) (ev : InEvent)
    (haw : sess.awaiting_user_input = true) :
    (handleInbound ps sess ev).sess = sess
      ∧ noUserForward (handleInbound ps sess ev).effs = true := by
  by_cases hd : ev.event = some "disconnect"
  · simp [handleInbound, hd, noUserForward]
  · obtain ⟨hp1, hp2, hp3⟩ :=
      promptStep_awaiting (streamStep (registerStep ps ev).1 ev) sess ev haw
    refine ⟨?_, ?_⟩
    · simp only [handleInbound, hd, if_neg, ite_false, HIResult.sess]
      simpa using hp2
    · simp only [handleInbound, hd, if_neg, ite_false, HIResult.effs]
      simp only [noUserForward_append, Bool.and_eq_true]
      refine ⟨⟨registerStep_noUser ps ev, hp3⟩, ?_⟩
      rw [hp2]
      exact bargeStep_noUser sess ev

theorem mem_noUserForward (effs : List Eff) (t : String)
    (h : noUserForward effs = true) : Eff.toModelUser t ∉ effs := by
  intro hmem
  have := List.all_eq_true.mp h _ hmem
  simp at this

/-- Claim C5: the speech of an inbound prompt frame is forwarded to the upstream
model session iff the session's `awaiting_user_input` flag is false; while the
flag is true, no amount of inbound processing forwards caller speech or clears
the flag — only the clarification override clears it (and the held speech flow
resumes from then on). -/
theorem caller_speech_gating :
    (∀ ps sess ev, sess.ws = true → ev.event ≠ some "disconnect" →
      ev.etype = some "prompt" →
      (Eff.toModelUser (ev.voicePrompt.getD "") ∈ (handleInbound ps sess ev).effs
        ↔ sess.awaiting_user_input = false))
  ∧ (∀ ps sess evs, sess.awaiting_user_input = true →
      (runInbound ps sess evs).2.1.awaiting_user_input = true
        ∧ noUserForward (runInbound ps sess evs).2.2 = true)
  ∧ (∀ reg sid sess answer, rget reg sid = some sess →
      sess.awaiting_user_input = true →
      rget (override_clarification reg sid answer).1 sid
        = some {(OpenAISession.inject_supervisor_text sess answer).1 with
            awaiting_user_input := false, query_prompt := none}) := by
  refine ⟨?_, ?_, ?_⟩
  · intro ps sess ev hws hd he
    constructor
    · intro hmem
      cases hval : sess.awaiting_user_input with
      | false => rfl
      | true =>
        exact absurd hmem
          (mem_noUserForward _ _ (handleInbound_sess_noUser ps sess ev hval).2)
    · intro hfl
      have hfwd := promptStep_forward (streamStep (registerStep ps ev).1 ev) sess ev
        hws he hfl
      simp only [handleInbound, hd, if_neg, ite_false, HIResult.effs]
      simp only [List.mem_append]
      exact Or.inl (Or.inr hfwd)
  · intro ps sess evs haw
    induction evs generalizing ps with
    | nil => exact ⟨haw, rfl⟩
    | cons ev rest ih =>
      obtain ⟨hsess, hnu⟩ := handleInbound_sess_noUser ps sess ev haw
      rw [runInbound]
      by_cases hstop : (handleInbound ps sess ev).stop = true
      · rw [if_pos hstop]
        exact ⟨by rw [hsess]; exact haw, hnu⟩
      · rw [if_neg hstop, hsess]
        obtain ⟨ih1, ih2⟩ := ih (handleInbound ps sess ev).ps
        refine ⟨ih1, ?_⟩
        show noUserForward ((handleInbound ps sess ev).effs
          ++ (runInbound (handleInbound ps sess ev).ps sess rest).2.2) = true
        rw [noUserForward_append, hnu, ih2]
        rfl
  · intro reg sid sess answer hr haw
    simp only [override_clarification, hr, haw, if_true]
    exact rget_rset_self reg sid _ sess hr

theorem caller_speech_gating_witness :
    (Eff.toModelUser "hi" ∈
      (handleInbound {} {ws := true}
        {etype := some "prompt", voicePrompt := some "hi"}).effs
      ↔ ({ws := true} : Sess).awaiting_user_input = false)
    ∧ ((runInbound {} {ws := true, awaiting_user_input := true}
        [{etype := some "prompt", voicePrompt := some "hold on"}]).2.1.awaiting_user_input
          = true
      ∧ noUserForward (runInbound {} {ws := true, awaiting_user_input := true}
          [{etype := some "prompt", voicePrompt := some "hold on"}]).2.2 = true)
    ∧ rget (override_clarification
          [("CA1", {ws := true, awaiting_user_input := true, query_prompt := some "q"})]
          "CA1" "12345").1 "CA1"
        = some {(OpenAISession.inject_supervisor_text
            {ws := true, awaiting_user_input := true, query_prompt := some "q"}
            "12345").1 with awaiting_user_input := false, query_prompt := none} := by
  obtain ⟨ha, hb, hc⟩ := caller_speech_gating
  exact ⟨ha {} {ws := true} {etype := some "prompt", voicePrompt := some "hi"}
      rfl (by decide) rfl,
    hb {} {ws := true, awaiting_user_input := true}
      [{etype := some "prompt", voicePrompt := some "hold on"}] rfl,
    hc [("CA1", {ws := true, awaiting_user_input := true, query_prompt := some "q"})]
      "CA1" {ws := true, awaiting_user_input := true, query_prompt := some "q"}
      "12345" (by decide) rfl⟩

/-- Claim C7: `override_clarification` on a registered session fails with a
400-equivalent (no mutation, no effects) when `awaiting_user_input` is false; on
success it forwards the answer as a supervisor-authored turn to the upstream
provider, clears `awaiting_user_input` and `query_prompt`, publishes exactly one
`query_response` event and returns ok. -/
theorem clarification_contract (reg : List (String × Sess)) (callSid : String)
    (sess : Sess) (answer : String) (hr : rget reg callSid = some sess) :
    (sess.awaiting_user_input = false →
      override_clarification reg callSid answer = (reg, [], .badRequest))
    ∧ (sess.awaiting_user_input = true → sess.ws = true →
      override_clarification reg callSid answer
        = (rset reg callSid
            {sess with
              history := sess.history ++ [("supervisor", answer)]
              awaiting_user_input := false
              query_prompt := none},
            [.toModelSupervisor ("supervisor: " ++ answer),
              .publish (.queryResponse callSid answer),
              .logOverride callSid "clarification" (some answer)], .ok)) := by
  constructor
  · intro haw
    simp [override_clarification, hr, haw]
  · intro haw hws
    simp [override_clarification, hr, haw, OpenAISession.inject_supervisor_text, hws]

theorem clarification_contract_witness :
    override_clarification [("CA1", {ws := true})] "CA1" "yes"
      = ([("CA1", {ws := true})], [], .badRequest)
    ∧ override_clarification
        [("CA1", {ws := true, awaiting_user_input := true, query_prompt := some "q"})]
        "CA1" "12345"
      = ([("CA1",
          {ws := true
           history := [("supervisor", "12345")]
           awaiting_user_input := false
           query_prompt := none})],
          [.toModelSupervisor "supervisor: 12345",
            .publish (.queryResponse "CA1" "12345"),
            .logOverride "CA1" "clarification" (some "12345")], .ok) := by
  constructor
  · exact (clarification_contract [("CA1", {ws := true})] "CA1" {ws := true} "yes"
      (by decide)).1 rfl
  · exact (clarification_contract
      [("CA1", {ws := true, awaiting_user_input := true, query_prompt := some "q"})]
      "CA1" {ws := true, awaiting_user_input := true, query_prompt := some "q"}
      "12345" (by decide)).2 rfl rfl

/-- Claim C1 (amended): only `override_text` and `override_clarification` resolve
the target session via the registry and fail with a not-found result, performing
no side effect, when no live session exists; `override_dtmf`, `override_end` and
`override_transfer` never consult the registry — they execute their command and
publish their events unconditionally and return ok even for an unknown call. -/
theorem override_registry_resolution :
    (∀ reg callSid text, rget reg callSid = none →
      override_text reg callSid text = (reg, [], .notFound))
  ∧ (∀ reg callSid answer, rget reg callSid = none →
      override_clarification reg callSid answer = (reg, [], .notFound))
  ∧ (∀ reg callSid digit, override_dtmf reg callSid digit
      = (reg, [.execCmd ⟨"press", some digit⟩ callSid,
          .publish (.commandExecuted callSid "press" (some digit)),
          .logOverride callSid "dtmf" (some digit)], .ok))
  ∧ (∀ reg callSid, override_end reg callSid
      = (reg, [.execCmd ⟨"end_call", none⟩ callSid, .publish (.sessionEnd callSid),
          .busEnd callSid, .logOverride callSid "end_call" none], .ok))
  ∧ (∀ reg callSid target, override_transfer reg callSid target
      = (reg, [.execCmd ⟨"transfer", some target⟩ callSid,
          .publish (.sessionTransfer callSid target),
          .logOverride callSid "transfer" (some target)], .ok)) := by
  refine ⟨?_, ?_, ?_, ?_, ?_⟩
  · intro reg callSid text h
    simp [override_text, h]
  · intro reg callSid answer h
    simp [override_clarification, h]
  · intro reg callSid digit
    rfl
  · intro reg callSid
    rfl
  · intro reg callSid target
    rfl

/-- Claim C1 counterexample: with an empty registry (no live session for the
call), `override_dtmf` still returns ok and still emits the provider command —
it neither consults the registry nor fails with not-found. -/
theorem override_dtmf_no_registry_check :
    rget ([] : List (String × Sess)) "CA404" = none
    ∧ (override_dtmf ([] : List (String × Sess)) "CA404" "5").2.2 = .ok
    ∧ Eff.execCmd ⟨"press", some "5"⟩ "CA404"
        ∈ (override_dtmf ([] : List (String × Sess)) "CA404" "5").2.1 := by
  refine ⟨rfl, rfl, ?_⟩
  simp [override_dtmf, execute_command_spec]

theorem override_registry_resolution_witness :
    override_text [] "CA9" "hello" = ([], [], .notFound)
    ∧ override_clarification [] "CA9" "yes" = ([], [], .notFound)
    ∧ override_end [] "CA9"
      = ([], [.execCmd ⟨"end_call", none⟩ "CA9", .publish (.sessionEnd "CA9"),
          .busEnd "CA9", .logOverride "CA9" "end_call" none], .ok) := by
  obtain ⟨h1, h2, _, h4, _⟩ := override_registry_resolution
  exact ⟨h1 [] "CA9" "hello" rfl, h2 [] "CA9" "yes" rfl, h4 [] "CA9"⟩

end Phony
